import Mathlib

/-!
# Verification development for the lowlang mid/back-end

A shallow embedding of the parts of the lowlang compiler relevant to its
specification: the cranelift middle context (`backend-clif/src/middle.rs`),
the IR builder (`ir/src/builder.rs`), the constant materializer
(`codegen_cranelift/src/const_.rs`), the reference operational semantics
(`vm/src/lib.rs`) and the syntax-level body builder
(`syntax/src/builder.rs`).  Machine integers are modelled as `Nat` with
explicit reductions modulo 256 where bytes are produced; `Vec<u8>` buffers
are `List Nat`; fallible (panicking) operations return `Option`.
-/

namespace Clif

/-- `cranelift::codegen::ir::Endianness`. -/
inductive Endianness where
  | big
  | little
deriving DecidableEq, Repr

/-- Target configuration: pointer size in bytes and endianness
(`module.target_config().pointer_bytes()` / `module.isa().endianness()`). -/
structure TargetConfig where
  ptrSize : Nat
  endianness : Endianness
deriving DecidableEq, Repr

/-- `u64::to_be_bytes`: index 0 is the most significant byte. -/
def toBeBytes (v : Nat) : List Nat :=
  (List.range 8).map (fun i => v / 2 ^ (8 * (7 - i)) % 256)

/-- `u64::to_le_bytes`: index 0 is the least significant byte. -/
def toLeBytes (v : Nat) : List Nat :=
  (List.range 8).map (fun i => v / 2 ^ (8 * i) % 256)

/-- `MiddleCtx::write_u64` (middle.rs lines 45-62).  `mid = 8 - ptr_size`;
the big-endian branch appends `to_be_bytes()[mid..]` three times, the
little-endian branch appends `to_le_bytes()[..mid]` three times. -/
def write_u64 (cfg : TargetConfig) (bytes : List Nat) (value : Nat) : List Nat :=
  let mid := 8 - cfg.ptrSize
  match cfg.endianness with
  | .big =>
      bytes ++ (toBeBytes value).drop mid ++ (toBeBytes value).drop mid
        ++ (toBeBytes value).drop mid
  | .little =>
      bytes ++ (toLeBytes value).take mid ++ (toLeBytes value).take mid
        ++ (toLeBytes value).take mid

/-- `middle::ValueWitnessTable`: sizes in bytes and three function ids. -/
structure ValueWitnessTable where
  size : Nat
  align : Nat
  stride : Nat
  copy_fn : Nat
  move_fn : Nat
  drop_fn : Nat
deriving DecidableEq, Repr

/-- An emitted data definition: its byte image, the function-address
relocations `(offset, func)` and the data-address relocations
`(offset, data, addend)` written into the `DataContext`. -/
structure DataBlob where
  bytes : List Nat
  funcRelocs : List (Nat × Nat) := []
  dataRelocs : List (Nat × Nat × Nat) := []
deriving DecidableEq, Repr

/-- `Vec::resize(n, v)`: truncates when the vector is longer than `n`,
pads with `v` otherwise. -/
def vecResize (l : List Nat) (n : Nat) (v : Nat) : List Nat :=
  l.take n ++ List.replicate (n - l.length) v

/-- `MiddleCtx::alloc_vwt` (middle.rs lines 97-119): three `write_u64`
calls for size, align, stride, then `bytes.resize(ptr_size * 6, 0)`, and
function-address relocations at byte offsets `3,4,5 * ptr_size`. -/
def alloc_vwt (cfg : TargetConfig) (vwt : ValueWitnessTable) : DataBlob :=
  let bytes := write_u64 cfg [] vwt.size
  let bytes := write_u64 cfg bytes vwt.align
  let bytes := write_u64 cfg bytes vwt.stride
  { bytes := vecResize bytes (cfg.ptrSize * 6) 0
    funcRelocs :=
      [(cfg.ptrSize * 3, vwt.copy_fn), (cfg.ptrSize * 4, vwt.move_fn),
       (cfg.ptrSize * 5, vwt.drop_fn)] }

/-- `MiddleCtx::alloc_info` (middle.rs lines 121-141): the buffer starts as
`vec![0; ptr_size]`, `write_u64` then appends the flags, and a data-address
relocation to the VWT is written at offset 0. -/
def alloc_info (cfg : TargetConfig) (vwt : Nat) (flags : Nat) : DataBlob :=
  { bytes := write_u64 cfg (List.replicate cfg.ptrSize 0) flags
    dataRelocs := [(0, vwt, 0)] }

/-- A trace event for `FnCtx::load` / `FnCtx::store`: pointer value,
byte offset, and for stores the value written. -/
inductive MemOp where
  | load (ptr : Nat) (off : Int)
  | store (ptr : Nat) (off : Int) (val : Nat)
deriving DecidableEq, Repr

/-- Abstract memory, an association list keyed by `(pointer, offset)`. -/
def Mem := List ((Nat × Int) × Nat)

/-- Read the current contents at a `(pointer, offset)` key. -/
def memRead (mem : Mem) (k : Nat × Int) : Nat :=
  ((mem.find? (fun e => e.1 == k)).map (·.2)).getD 0

/-- Memory after a store. -/
def memWrite (mem : Mem) (k : Nat × Int) (v : Nat) : Mem :=
  (k, v) :: mem

/-- Interpretation of a trace through `FnCtx::load`/`FnCtx::store`
(middle.rs lines 287-301) with the `load_cache` active: a load first
consults the cache; a miss reads memory and inserts the entry.
`FnCtx::store` writes memory and leaves the cache untouched, exactly as in
the source.  Returns the list of values the loads produce, in order. -/
def runCached : List MemOp → List ((Nat × Int) × Nat) → Mem → List Nat
  | [], _, _ => []
  | .load p o :: rest, cache, mem =>
      match cache.find? (fun e => e.1 == (p, o)) with
      | some e => e.2 :: runCached rest cache mem
      | none =>
          let v := memRead mem (p, o)
          v :: runCached rest (((p, o), v) :: cache) mem
  | .store p o v :: rest, cache, mem =>
      runCached rest cache (memWrite mem (p, o) v)

/-- The same trace with the load cache disabled: every load reads memory. -/
def runPlain : List MemOp → Mem → List Nat
  | [], _ => []
  | .load p o :: rest, mem => memRead mem (p, o) :: runPlain rest mem
  | .store p o v :: rest, mem => runPlain rest (memWrite mem (p, o) v)

end Clif

namespace Clif

/-- A little-endian 64-bit target, the common case. -/
def le64 : TargetConfig := ⟨8, .little⟩

/-- A little-endian 32-bit target. -/
def le32 : TargetConfig := ⟨4, .little⟩

/-- C1: on a little-endian 64-bit target, `alloc_vwt` for
`{size := 1, align := 2, stride := 4}` emits a blob of the right length
(48 bytes) with function relocations at slots 3,4,5, but the first three
pointer-sized slots are all zero: `write_u64` takes
`to_le_bytes()[..8 - ptr_size]`, an empty slice, so none of size, align,
stride is encoded.  The claim that slot 0 holds `size` fails. -/
theorem alloc_vwt_bug_eval :
    (alloc_vwt le64 ⟨1, 2, 4, 10, 11, 12⟩).bytes = List.replicate 48 0 ∧
    (alloc_vwt le64 ⟨1, 2, 4, 10, 11, 12⟩).funcRelocs =
      [(24, 10), (32, 11), (40, 12)] ∧
    ((alloc_vwt le64 ⟨1, 2, 4, 10, 11, 12⟩).bytes.take 8 ≠ toLeBytes 1) := by
  refine ⟨by decide, by decide, by decide⟩

/-- C2: the trace `load (1,0); store (1,0) 9; load (1,0)` starting from a
memory holding 4 at `(1,0)`.  With the cache the second load still returns
the stale 4; with the cache disabled it returns the stored 9.  So the
cached result of a load does not always equal the uncached result, and a
store does not invalidate the entry for its own `(ptr, off)`. -/
theorem load_cache_stale_eval :
    runCached [.load 1 0, .store 1 0 9, .load 1 0] [] [((1, 0), 4)] = [4, 4] ∧
    runPlain [.load 1 0, .store 1 0 9, .load 1 0] [((1, 0), 4)] = [4, 9] ∧
    ([4, 4] : List Nat) ≠ [4, 9] := by
  refine ⟨by decide, by decide, by decide⟩

/-- C6: on a little-endian 32-bit target, `alloc_info` with flags 5 emits
`[0,0,0,0]` at offset 0 (where the claim places the flags integer) and the
flags bytes only from offset `ptr_size` on, three times over; the
data-address relocation is indeed at offset 0.  On a 64-bit little-endian
target the flags are dropped entirely and the blob is all zero. -/
theorem alloc_info_flags_misplaced_eval :
    (alloc_info le32 3 5).bytes =
      [0, 0, 0, 0, 5, 0, 0, 0, 5, 0, 0, 0, 5, 0, 0, 0] ∧
    (alloc_info le32 3 5).dataRelocs = [(0, 3, 0)] ∧
    ((alloc_info le32 3 5).bytes.take 4 ≠ (toLeBytes 5).take 4) ∧
    (alloc_info le64 3 5).bytes = List.replicate 8 0 := by
  refine ⟨by decide, by decide, by decide, by decide⟩

end Clif


namespace Syn

/-!
Model of `syntax/src/builder.rs`.  The data definitions of the `syntax`
crate itself are not among the provided sources; the variant lists below
are reconstructed from their uses in `syntax/src/builder.rs` and
`vm/src/lib.rs`.
-/

/-- Interned type handle of the syntax crate; its contents are not among
the provided sources and never inspected by the builder. -/
abbrev SynTy := Nat

/-- Binary operator id (contents not inspected by the builder). -/
abbrev BinOp := Nat

/-- Unary operator id (contents not inspected by the builder). -/
abbrev UnOp := Nat

/-- Nullary operator id (contents not inspected by the builder). -/
abbrev NullOp := Nat

/-- `PlaceBase`: a local or a global item. -/
inductive PlaceBase where
  | lcl (id : Nat)
  | glb (id : Nat)

/-- `PlaceElem` as pushed by `Place::deref/field/index/const_index`
(builder.rs lines 134-152).  The `index` payload is a `Place`; it is
inlined here as base plus element list to avoid mutual recursion. -/
inductive PlaceElem where
  | deref
  | field (idx : Nat)
  | index (base : PlaceBase) (elems : List PlaceElem)
  | constIndex (idx : Nat)

/-- A place: a base and a list of projection elements. -/
structure Place where
  base : PlaceBase
  elems : List PlaceElem

/-- `Operand` as used by `vm/src/lib.rs` (`Constant`, `Copy`, `Move`);
the constant payload is reduced to its numeric value. -/
inductive Operand where
  | constant (val : Nat)
  | copy (p : Place)
  | move (p : Place)

/-- `Value` as constructed by the builder's statement helpers. -/
inductive Value where
  | use (op : Operand)
  | ref (toP : Place)
  | slice (arr : Place) (lo hi : Operand)
  | cast (ty : SynTy) (op : Operand)
  | binOp (op : BinOp) (lhs rhs : Operand)
  | unOp (op : UnOp) (val : Operand)
  | nullOp (op : NullOp) (ty : SynTy)
  | initV (ty : SynTy) (ops : List Operand)

/-- `Stmt::Assign`. -/
inductive Stmt where
  | assign (place : Place) (value : Value)

/-- `Terminator` with the variants set by `BodyBuilder::return_`, `jump`,
`call` and `switch`, plus the sentinel `Unset` a fresh block carries. -/
inductive Terminator where
  | unset
  | ret
  | jump (target : Nat)
  | call (places : List Place) (proc : Operand) (args : List Operand) (target : Nat)
  | switch (op : Operand) (vals : List Nat) (targets : List Nat)

/-- A basic block: id, statements, terminator. -/
structure Block where
  id : Nat
  stmts : List Stmt
  term : Terminator

/-- `LocalKind` (`Arg`, `Ret`, `Var`, `Tmp`). -/
inductive LocalKind where
  | arg
  | retL
  | varL
  | tmp

/-- A local slot of a body. -/
structure Local where
  id : Nat
  kind : LocalKind
  ty : SynTy

/-- A body: its locals and blocks, both `BTreeMap`s modelled as
association lists keyed by id. -/
structure Body where
  locals : List (Nat × Local)
  blocks : List (Nat × Block)

/-- `BTreeMap::get`. -/
def mapGet {α : Type} (m : List (Nat × α)) (k : Nat) : Option α :=
  (m.find? (fun e => e.1 == k)).map (·.2)

/-- `BTreeMap::get_mut` followed by an update of the found entry. -/
def mapSet {α : Type} (m : List (Nat × α)) (k : Nat) (v : α) : List (Nat × α) :=
  m.map (fun e => if e.1 == k then (e.1, v) else e)

/-- `BodyBuilder`: the body being built and the current block. -/
structure BodyBuilder where
  body : Body
  currentBlock : Option Nat

/-- Replace the current block (the write half of `BodyBuilder::block`);
`none` when the current block is unset or absent, which panics in the
source. -/
def BodyBuilder.withBlock (bb : BodyBuilder) (f : Block → Block) :
    Option BodyBuilder :=
  match bb.currentBlock with
  | none => none
  | some cur =>
    match mapGet bb.body.blocks cur with
    | none => none
    | some blk =>
      some { bb with
        body := { bb.body with blocks := mapSet bb.body.blocks cur (f blk) } }

/-- `BodyBuilder::return_` (builder.rs lines 237-241): sets the terminator
to `Return` only when it is still `Unset`. -/
def BodyBuilder.returnT (bb : BodyBuilder) : Option BodyBuilder :=
  match bb.currentBlock with
  | none => none
  | some cur =>
    match mapGet bb.body.blocks cur with
    | none => none
    | some blk =>
      match blk.term with
      | .unset => bb.withBlock (fun b => { b with term := .ret })
      | _ => some bb

/-- `BodyBuilder::jump` (builder.rs lines 243-247). -/
def BodyBuilder.jumpT (bb : BodyBuilder) (target : Nat) : Option BodyBuilder :=
  match bb.currentBlock with
  | none => none
  | some cur =>
    match mapGet bb.body.blocks cur with
    | none => none
    | some blk =>
      match blk.term with
      | .unset => bb.withBlock (fun b => { b with term := .jump target })
      | _ => some bb

/-- `BodyBuilder::call` (builder.rs lines 249-253). -/
def BodyBuilder.callT (bb : BodyBuilder) (places : List Place) (proc : Operand)
    (args : List Operand) (target : Nat) : Option BodyBuilder :=
  match bb.currentBlock with
  | none => none
  | some cur =>
    match mapGet bb.body.blocks cur with
    | none => none
    | some blk =>
      match blk.term with
      | .unset => bb.withBlock (fun b => { b with term := .call places proc args target })
      | _ => some bb

/-- `BodyBuilder::switch` (builder.rs lines 255-259). -/
def BodyBuilder.switchT (bb : BodyBuilder) (op : Operand) (vals : List Nat)
    (targets : List Nat) : Option BodyBuilder :=
  match bb.currentBlock with
  | none => none
  | some cur =>
    match mapGet bb.body.blocks cur with
    | none => none
    | some blk =>
      match blk.term with
      | .unset => bb.withBlock (fun b => { b with term := .switch op vals targets })
      | _ => some bb

/-- C10: once a block's terminator is anything other than `Unset`, each of
`return_`, `jump`, `call` and `switch` succeeds but leaves the whole
builder unchanged — the first terminator set wins and later attempts are
silent no-ops. -/
theorem terminator_first_set_wins (bb : BodyBuilder) (cur : Nat) (blk : Block)
    (hc : bb.currentBlock = some cur)
    (hb : mapGet bb.body.blocks cur = some blk)
    (hset : blk.term ≠ .unset) :
    bb.returnT = some bb ∧
    (∀ t, bb.jumpT t = some bb) ∧
    (∀ ps p as_ t, bb.callT ps p as_ t = some bb) ∧
    (∀ o vs ts, bb.switchT o vs ts = some bb) := by
  refine ⟨?_, fun t => ?_, fun ps p as_ t => ?_, fun o vs ts => ?_⟩ <;>
  · simp only [BodyBuilder.returnT, BodyBuilder.jumpT, BodyBuilder.callT,
      BodyBuilder.switchT, hc, hb]

/-- An already-terminated block used to instantiate the theorem. -/
def doneBuilder : BodyBuilder :=
  { body := { locals := [], blocks := [(0, ⟨0, [], .ret⟩)] }, currentBlock := some 0 }

/-- Witness: on a builder whose current block already returned, a later
`return_`/`jump`/`call`/`switch` is a no-op. -/
theorem terminator_first_set_wins_witness :
    doneBuilder.returnT = some doneBuilder ∧
    (∀ t, doneBuilder.jumpT t = some doneBuilder) ∧
    (∀ ps p as_ t, doneBuilder.callT ps p as_ t = some doneBuilder) ∧
    (∀ o vs ts, doneBuilder.switchT o vs ts = some doneBuilder) :=
  terminator_first_set_wins doneBuilder 0 ⟨0, [], .ret⟩ rfl rfl (fun h => nomatch h)

end Syn

namespace Vm

/-!
Model of `VM::place` from `vm/src/lib.rs` (lines 239-252).  The `vm`
crate's own `Place` has a `base` (`PlaceBase::Local`) and a `projection`
list whose elements are `Field(i)` and `Deref` — the two cases `place`
matches on.  The `memory` module is not among the provided sources;
`read_u32` is taken as an abstract function from locations to values.
-/

/-- Projection elements handled by `VM::place`. -/
inductive PlaceElem where
  | field (i : Nat)
  | deref
deriving DecidableEq, Repr

/-- A place: a local base and its projection list. -/
structure Place where
  base : Nat
  projection : List PlaceElem
deriving Repr

/-- The locals and sizes tables of the active stack frame, as functions
from local id to location resp. size (`HashMap` indexing). -/
structure StackFrame where
  locals : Nat → Nat
  sizes : Nat → Nat

/-- One projection step: `Field(i)` adds `i` to the location, `Deref`
replaces the location by `read_u32` of it. -/
def projStep (readU32 : Nat → Nat) (loc : Nat) : PlaceElem → Nat
  | .field i => loc + i
  | .deref => readU32 loc

/-- `VM::place`: starts from the local's location and size, then folds the
projection elements **in reversed order** — the source iterates
`p.projection.into_iter().rev()`. -/
def place (readU32 : Nat → Nat) (frame : StackFrame) (p : Place) : Nat × Nat :=
  (p.projection.reverse.foldl (projStep readU32) (frame.locals p.base),
   frame.sizes p.base)

/-- Modelled from the spec: the intended forward (source-order) evaluation
of the projection, element 0 applied to the base location first.  Used as
the comparison point for the reversed iteration in `VM::place`. -/
def placeForward (readU32 : Nat → Nat) (frame : StackFrame) (p : Place) :
    Nat × Nat :=
  (p.projection.foldl (projStep readU32) (frame.locals p.base),
   frame.sizes p.base)

/-- A concrete memory: location 10 holds 55, location 11 holds 99. -/
def memEx : Nat → Nat := fun loc =>
  if loc = 10 then 55 else if loc = 11 then 99 else 0

/-- A concrete frame: local 0 lives at location 10 with size 4. -/
def frameEx : StackFrame :=
  { locals := fun _ => 10, sizes := fun _ => 4 }

/-- The place `local0.deref().field(1)`: projection built in forward
source order by the IR builder (`Place::deref` then `Place::field`). -/
def placeEx : Place := { base := 0, projection := [.deref, .field 1] }

/-- C9: `VM::place` applies the projection elements in reversed order, not
forward source order.  On `local0.deref().field(1)` with `mem[10] = 55`
and `mem[11] = 99`, the code computes `field 1` first and then
dereferences (location `read_u32(10 + 1) = 99`), while forward evaluation
dereferences first and then adds the field offset
(`read_u32(10) + 1 = 56`).  The two disagree, refuting the claim that
`place()` evaluates element 0 first. -/
theorem place_reversed_eval :
    place memEx frameEx placeEx = (99, 4) ∧
    placeForward memEx frameEx placeEx = (56, 4) ∧
    (99, 4) ≠ ((56, 4) : Nat × Nat) := by
  refine ⟨by decide, by decide, by decide⟩

end Vm

namespace Ir

/-!
Model of `ir/src/builder.rs`.  Variables (`Var`), blocks (`Block`) and
functions (`FuncId`) are arena indices, modelled as `Nat`; arenas are
lists indexed by position.  `Block::ENTRY` is index 0.  Signatures are
modelled by a mutual list type (`SigList`) because the builder's `Ty`
nests signatures inside types.  Operations that panic in the source
return `Option`.
-/

/-- Variable flags (`Flags::{EMPTY, INDIRECT, RETURN, IN, OUT, TAKE,
INIT}`), each bit a field. -/
structure Flags where
  indirect : Bool := false
  ret : Bool := false
  inp : Bool := false
  out : Bool := false
  takeFlag : Bool := false
  initFlag : Bool := false
deriving DecidableEq, Repr

/-- `Flags::EMPTY`. -/
def Flags.EMPTY : Flags := {}

/-- `Flags::INDIRECT`. -/
def Flags.INDIRECT : Flags := { indirect := true }

/-- `Flags::RETURN`. -/
def Flags.RETURN : Flags := { ret := true }

mutual

/-- `ir::ty::Ty` restricted to the kinds the builder inspects:
a base primitive (`int`), pointers, boxes, type variables
(`typ::Var`), generic quantifiers (`typ::Generic`, parameter count only)
and function signatures (`typ::Func`). -/
inductive Ty where
  | int
  | ptr (pointee : Ty)
  | boxT (of : Ty)
  | tvar (depth : Nat) (idx : Nat)
  | generic (nparams : Nat) (ret : Ty)
  | func (params : SigList) (rets : SigList)
deriving DecidableEq, Repr

/-- The parameter/return list of a signature: each entry a type plus its
passing flags (`IN` / `OUT`). -/
inductive SigList where
  | nil
  | cons (ty : Ty) (flags : Flags) (rest : SigList)
deriving DecidableEq, Repr

end

/-- `Ty::ptr`: wrap in a pointer type. -/
def Ty.mkPtr (t : Ty) : Ty := Ty.ptr t

/-- `Ty::boxed`: wrap in a box type. -/
def Ty.mkBoxed (t : Ty) : Ty := Ty.boxT t

mutual

/-- Modelled from the spec: `Ty::subst` (used by `Builder::apply` for
generic callees) is not among the provided sources.  Per §4.A it replaces
`Var(d, i)` by `s[i]` when `d` equals the current depth and shifts the
depth under nested generic quantifiers. -/
def Ty.subst : Ty → List Ty → Nat → Ty
  | .int, _, _ => .int
  | .ptr t, s, d => .ptr (t.subst s d)
  | .boxT t, s, d => .boxT (t.subst s d)
  | .tvar dep i, s, d => if dep = d then (s.getD i (.tvar dep i)) else .tvar dep i
  | .generic n r, s, d => .generic n (r.subst s (d + 1))
  | .func ps rs, s, d => .func (ps.subst s d) (rs.subst s d)

/-- `Ty.subst` mapped over a signature list. -/
def SigList.subst : SigList → List Ty → Nat → SigList
  | .nil, _, _ => .nil
  | .cons ty f rest, s, d => .cons (ty.subst s d) f (rest.subst s d)

end

/-- `VarInfo { ty, flags }`. -/
structure VarInfo where
  ty : Ty
  flags : Flags
deriving DecidableEq, Repr

/-- `Instr`: the instruction set of `ir`.  `FuncRef` and `Intrinsic`
involve the module-level function arena and the intrinsic registry and
are not needed by any claim; they are omitted. -/
inductive Instr where
  | stackAlloc (ret : Nat) (ty : Ty)
  | stackFree (addr : Nat)
  | boxAlloc (ret : Nat) (ty : Ty)
  | boxFree (boxed : Nat)
  | boxAddr (ret : Nat) (boxed : Nat)
  | load (ret : Nat) (addr : Nat)
  | store (val : Nat) (addr : Nat)
  | copyAddr (old : Nat) (new : Nat) (flags : Flags)
  | constInt (ret : Nat) (val : Nat)
  | apply (rets : List Nat) (func : Nat) (subst : List Ty) (args : List Nat)
deriving DecidableEq, Repr

/-- `BrTarget { block, args }`. -/
structure BrTarget where
  block : Nat
  args : List Nat
deriving DecidableEq, Repr

/-- `SwitchCase { val, to }` (the target field renamed: `to` is reserved). -/
structure SwitchCase where
  val : Nat
  target : BrTarget
deriving DecidableEq, Repr

/-- `Term`: block terminators. -/
inductive Term where
  | unreachable
  | ret (ops : List Nat)
  | br (target : BrTarget)
  | switch (pred : Nat) (cases : List SwitchCase) (default : BrTarget)
deriving DecidableEq, Repr

/-- `BlockData { params, instrs, term }`. -/
structure BlockData where
  params : List Nat
  instrs : List Instr
  term : Option Term
deriving DecidableEq, Repr

/-- `Body`: generic parameter count, variable arena, block arena. -/
structure Body where
  genericParams : Nat
  vars : List VarInfo
  blocks : List BlockData
deriving DecidableEq, Repr

/-- `Builder`: the body being built plus the current block id.  The
module reference only matters for `func_ref`, which is omitted. -/
structure Builder where
  body : Body
  blockId : Nat
deriving DecidableEq, Repr

/-- Apply `f` to the element at index `i` (no-op when out of range). -/
def modifyAt {α : Type} (f : α → α) : Nat → List α → List α
  | _, [] => []
  | 0, a :: t => f a :: t
  | n + 1, a :: t => a :: modifyAt f n t

/-- Arena lookup of a variable's info (`body[var]`). -/
def Body.getVar (b : Body) (v : Nat) : Option VarInfo :=
  b.vars.get? v

/-- `Body::var_type`. -/
def Body.varType (b : Body) (v : Nat) : Option Ty :=
  (b.getVar v).map (·.ty)

/-- `Builder::create_var`: push a `VarInfo` with `Flags::EMPTY` and
return its index. -/
def Builder.createVar (b : Builder) (ty : Ty) : Builder × Nat :=
  ({ b with body := { b.body with vars := b.body.vars ++ [⟨ty, Flags.EMPTY⟩] } },
   b.body.vars.length)

/-- `self.body_mut()[var].flags = f`. -/
def Builder.setVarFlags (b : Builder) (v : Nat) (f : Flags) : Builder :=
  { b with body :=
      { b.body with vars := modifyAt (fun vi => { vi with flags := f }) v b.body.vars } }

/-- `Builder::create_block`: push an empty block. -/
def Builder.createBlock (b : Builder) : Builder × Nat :=
  ({ b with body := { b.body with blocks := b.body.blocks ++ [⟨[], [], none⟩] } },
   b.body.blocks.length)

/-- `Builder::set_block`. -/
def Builder.setBlock (b : Builder) (blockId : Nat) : Builder :=
  { b with blockId := blockId }

/-- Append an instruction to the current block
(`self.block().instrs.push(..)`); `none` when the current block id is out
of range, which panics in the source. -/
def Builder.pushInstr (b : Builder) (ins : Instr) : Option Builder :=
  if b.blockId < b.body.blocks.length then
    let blocks := modifyAt (fun blk => { blk with instrs := blk.instrs ++ [ins] }) b.blockId b.body.blocks
    some { b with body := { b.body with blocks := blocks } }
  else none

/-- Set the current block's terminator (`self.block().term = Some t`). -/
def Builder.setTermB (b : Builder) (t : Term) : Option Builder :=
  if b.blockId < b.body.blocks.length then
    let blocks := modifyAt (fun blk => { blk with term := some t }) b.blockId b.body.blocks
    some { b with body := { b.body with blocks := blocks } }
  else none

/-- `Builder::unreachable`. -/
def Builder.unreachableB (b : Builder) : Option Builder :=
  b.setTermB .unreachable

/-- `Builder::br`. -/
def Builder.brB (b : Builder) (block : Nat) (args : List Nat) : Option Builder :=
  b.setTermB (.br ⟨block, args⟩)

/-- Whether a type's kind is `typ::Var(_)`. -/
def Ty.isVar : Ty → Bool
  | .tvar _ _ => true
  | _ => false

/-- `Builder::add_param` (builder.rs lines 106-119): a parameter whose
type kind is `Var(_)` gets a fresh variable of pointer type `ty.ptr()`
with the `INDIRECT` flag; any other kind gets a variable of the given
type with empty flags.  The variable is pushed onto the block's
parameter list. -/
def Builder.addParam (b : Builder) (blockId : Nat) (ty : Ty) :
    Option (Builder × Nat) :=
  let (b, param) :=
    if ty.isVar then
      let (b, v) := b.createVar (Ty.mkPtr ty)
      (b.setVarFlags v Flags.INDIRECT, v)
    else b.createVar ty
  if blockId < b.body.blocks.length then
    let blocks := modifyAt (fun blk => { blk with params := blk.params ++ [param] }) blockId b.body.blocks
    some ({ b with body := { b.body with blocks := blocks } }, param)
  else none

/-- `Builder::stack_alloc`: fresh variable of type `*ty`, then a
`StackAlloc` instruction. -/
def Builder.stackAllocB (b : Builder) (ty : Ty) : Option (Builder × Nat) :=
  let (b, r) := b.createVar (Ty.mkPtr ty)
  (b.pushInstr (.stackAlloc r ty)).map (·, r)

/-- `Builder::stack_free`. -/
def Builder.stackFreeB (b : Builder) (addr : Nat) : Option Builder :=
  b.pushInstr (.stackFree addr)

/-- `Builder::box_alloc`. -/
def Builder.boxAllocB (b : Builder) (ty : Ty) : Option (Builder × Nat) :=
  let (b, r) := b.createVar (Ty.mkBoxed ty)
  (b.pushInstr (.boxAlloc r ty)).map (·, r)

/-- `Builder::box_free`. -/
def Builder.boxFreeB (b : Builder) (boxed : Nat) : Option Builder :=
  b.pushInstr (.boxFree boxed)

/-- `Builder::box_addr`: requires the operand's type to be `box ty`. -/
def Builder.boxAddrB (b : Builder) (boxed : Nat) : Option (Builder × Nat) :=
  match b.body.varType boxed with
  | some (.boxT of) =>
      let (b, r) := b.createVar (Ty.mkPtr of)
      (b.pushInstr (.boxAddr r boxed)).map (·, r)
  | _ => none

/-- `Builder::load` (builder.rs lines 223-233): requires the address type
to be `*ty`; creates the result variable of type `ty`. -/
def Builder.loadB (b : Builder) (addr : Nat) : Option (Builder × Nat) :=
  match b.body.varType addr with
  | some (.ptr pointee) =>
      let (b, r) := b.createVar pointee
      (b.pushInstr (.load r addr)).map (·, r)
  | _ => none

/-- `Builder::store` (builder.rs lines 236-246): requires
`type_of(addr) = Ptr(type_of(val))`; otherwise panics (modelled `none`)
with no instruction appended. -/
def Builder.storeB (b : Builder) (val : Nat) (addr : Nat) : Option Builder :=
  match b.body.varType addr with
  | some (.ptr pointee) =>
      match b.body.varType val with
      | some tv => if pointee = tv then b.pushInstr (.store val addr) else none
      | none => none
  | _ => none

/-- `Builder::copy_addr` (builder.rs lines 252-266): both operands must
be pointers to the same type. -/
def Builder.copyAddrB (b : Builder) (old : Nat) (new : Nat) (f : Flags) :
    Option Builder :=
  match b.body.varType old with
  | some (.ptr tOld) =>
      match b.body.varType new with
      | some (.ptr tNew) =>
          if tOld = tNew then b.pushInstr (.copyAddr old new f) else none
      | _ => none
  | _ => none

/-- `Builder::const_int`. -/
def Builder.constIntB (b : Builder) (val : Nat) (ty : Ty) : Option (Builder × Nat) :=
  let (b, r) := b.createVar ty
  (b.pushInstr (.constInt r val)).map (·, r)

end Ir

namespace Ir

/-- Insert a parameter at position 0 of the entry block's parameter list
(`self.body_mut()[Block::ENTRY].params.insert(0, param)`); `none` when
there is no entry block. -/
def Builder.insertEntryParam0 (b : Builder) (param : Nat) : Option Builder :=
  if 0 < b.body.blocks.length then
    let blocks := modifyAt (fun blk => { blk with params := param :: blk.params }) 0 b.body.blocks
    some { b with body := { b.body with blocks := blocks } }
  else none

/-- The else-arm of the indirect case of `Builder::return_`
(builder.rs lines 136-140): create a variable of the operand's type,
flag it `RETURN`, insert it at position 0 of the entry parameters, and
copy the operand into it. -/
def Builder.freshReturnParam (b : Builder) (op : Nat) (vi : VarInfo) :
    Option Builder :=
  let bp := b.createVar vi.ty
  let b1 := bp.1.setVarFlags bp.2 Flags.RETURN
  match b1.insertEntryParam0 bp.2 with
  | none => none
  | some b2 => b2.copyAddrB op bp.2 Flags.EMPTY

/-- The `filter_map` loop of `Builder::return_` (builder.rs lines
127-149).  `i` counts the indirect operands seen so far; an indirect
operand is dropped from the returned list after a `CopyAddr` to the
`RETURN` parameter (the existing parameter at index `i` when it carries
the `RETURN` flag, otherwise a fresh one inserted at position 0). -/
def Builder.returnLoop : Builder → Nat → List Nat → Option (Builder × List Nat)
  | b, _, [] => some (b, [])
  | b, i, op :: rest =>
    match b.body.getVar op with
    | none => none
    | some vi =>
      if vi.flags.indirect then
        match b.body.blocks.get? 0 with
        | none => none
        | some entry =>
          let step : Option Builder :=
            match entry.params.get? i with
            | some p =>
                match b.body.getVar p with
                | none => none
                | some pvi =>
                    if pvi.flags.ret then b.copyAddrB op p Flags.EMPTY
                    else b.freshReturnParam op vi
            | none => b.freshReturnParam op vi
          match step with
          | none => none
          | some b => b.returnLoop (i + 1) rest
      else
        match b.returnLoop i rest with
        | none => none
        | some (b, kept) => some (b, op :: kept)

/-- `Builder::return_`: run the rewrite loop over the operands, then set
the current block's terminator to `Return` with the kept operands. -/
def Builder.returnB (b : Builder) (ops : List Nat) : Option Builder :=
  match b.returnLoop 0 ops with
  | none => none
  | some (b, kept) => b.setTermB (.ret kept)

/-- First pass of `Builder::apply` over the signature returns
(builder.rs lines 301-315): an `OUT` return stack-allocates a slot
(collected into `ret_args`), any other return creates a result variable
(collected into `rets`). -/
def Builder.allocRets : Builder → SigList → Option (Builder × List Nat × List Nat)
  | b, .nil => some (b, [], [])
  | b, .cons ty f rest =>
    if f.out then
      match b.stackAllocB ty with
      | none => none
      | some (b, slot) =>
        match b.allocRets rest with
        | none => none
        | some (b, ra, rs) => some (b, slot :: ra, rs)
    else
      let (b, v) := b.createVar ty
      match b.allocRets rest with
      | none => none
      | some (b, ra, rs) => some (b, ra, v :: rs)

/-- Argument pass of `Builder::apply` (builder.rs lines 317-332):
`args.zip(params)` — an `IN` parameter stack-allocates a slot, stores the
argument into it and passes the slot (also collected into
`indirect_args`); any other argument is passed unchanged. -/
def Builder.lowerArgs : Builder → List Nat → SigList →
    Option (Builder × List Nat × List Nat)
  | b, [], _ => some (b, [], [])
  | b, _, .nil => some (b, [], [])
  | b, arg :: args, .cons ty f rest =>
    if f.inp then
      match b.stackAllocB ty with
      | none => none
      | some (b, slot) =>
        match b.storeB arg slot with
        | none => none
        | some b =>
          match b.lowerArgs args rest with
          | none => none
          | some (b, la, ia) => some (b, slot :: la, slot :: ia)
    else
      match b.lowerArgs args rest with
      | none => none
      | some (b, la, ia) => some (b, arg :: la, ia)

/-- Emit a `StackFree` for each slot in order (the source frees
`indirect_args.into_iter().rev()`; the caller passes the reversed list). -/
def Builder.freeSlots : Builder → List Nat → Option Builder
  | b, [] => some b
  | b, a :: rest =>
    match b.stackFreeB a with
    | none => none
    | some b => b.freeSlots rest

/-- `Vec::pop` on the modelled vector: removes and returns the last
element. -/
def popEnd (l : List Nat) : Option (List Nat × Nat) :=
  match l.reverse with
  | [] => none
  | a :: t => some (t.reverse, a)

/-- `Vec::insert(i, a)`. -/
def insertAt (i : Nat) (a : Nat) : List Nat → List Nat :=
  match i with
  | 0 => fun l => a :: l
  | n + 1 => fun l =>
    match l with
    | [] => [a]
    | x :: xs => x :: insertAt n a xs

/-- Final pass of `Builder::apply` (builder.rs lines 347-355): for each
`OUT` return in source order, pop its slot from the reversed `ret_args`,
load the value back, free the slot, and insert the loaded value at the
return's source position `i` in `rets`. -/
def Builder.finishOuts : Builder → SigList → Nat → List Nat → List Nat →
    Option (Builder × List Nat)
  | b, .nil, _, _, rets => some (b, rets)
  | b, .cons _ f rest, i, retArgs, rets =>
    if f.out then
      match popEnd retArgs with
      | none => none
      | some (retArgs, slot) =>
        match b.loadB slot with
        | none => none
        | some (b, val) =>
          match b.stackFreeB slot with
          | none => none
          | some b => b.finishOuts rest (i + 1) retArgs (insertAt i val rets)
    else b.finishOuts rest (i + 1) retArgs rets

/-- `Builder::apply` (builder.rs lines 292-361): unwrap a generic callee
type by substitution, require a function signature, allocate `OUT` slots
and result variables, lower `IN` arguments through stack slots, emit the
`Apply`, free the `IN` slots in reverse order, then load and free each
`OUT` slot and insert its value at the source position. -/
def Builder.applyB (b : Builder) (func : Nat) (sub : List Ty) (args : List Nat) :
    Option (Builder × List Nat) :=
  match b.body.varType func with
  | none => none
  | some sig0 =>
    let sig :=
      match sig0 with
      | .generic _ r => r.subst sub 0
      | s => s
    match sig with
    | .func params rets =>
      match b.allocRets rets with
      | none => none
      | some (b, retArgs, retVars) =>
        match b.lowerArgs args params with
        | none => none
        | some (b, lowered, indirectArgs) =>
          match b.pushInstr (.apply retVars func sub (retArgs ++ lowered)) with
          | none => none
          | some b =>
            match b.freeSlots indirectArgs.reverse with
            | none => none
            | some b => b.finishOuts rets 0 retArgs.reverse retVars
    | _ => none

end Ir

namespace Ir

/-- Parameter list of block `i` (empty when out of range). -/
def Builder.blockParamsD (b : Builder) (i : Nat) : List Nat :=
  ((b.body.blocks.get? i).map (·.params)).getD []

/-- Instruction list of block `i` (empty when out of range). -/
def Builder.blockInstrsD (b : Builder) (i : Nat) : List Instr :=
  ((b.body.blocks.get? i).map (·.instrs)).getD []

/-- Terminator of block `i`. -/
def Builder.blockTermD (b : Builder) (i : Nat) : Option Term :=
  (b.body.blocks.get? i).bind (·.term)

/-- Entry-block parameters (`Block::ENTRY` is index 0). -/
def Builder.entryParamsD (b : Builder) : List Nat :=
  b.blockParamsD 0

/-- Whether variable `op` carries the `INDIRECT` flag. -/
def Builder.isIndirect (b : Builder) (op : Nat) : Bool :=
  ((b.body.getVar op).map (·.flags.indirect)).getD false

/-- One step of the stack-discipline check: `StackAlloc` pushes its slot,
`StackFree` must free the most recently allocated live slot. -/
def lifoStep (st : Option (List Nat)) (ins : Instr) : Option (List Nat) :=
  match st, ins with
  | some stack, .stackAlloc r _ => some (r :: stack)
  | some stack, .stackFree a =>
      match stack with
      | [] => none
      | top :: rest => if top = a then some rest else none
  | st, _ => st

/-- A sequence of instructions respects LIFO pairing of
`StackAlloc`/`StackFree` when the stack simulation never fails. -/
def lifoOk (l : List Instr) : Bool :=
  (l.foldl lifoStep (some [])).isSome

/-- Caller with variable 0 a function of signature
`(IN int) -> (OUT int, OUT int)` and variable 1 an `int` argument. -/
def applyExB : Builder :=
  { body := { genericParams := 0,
              vars := [⟨Ty.func (.cons .int { inp := true } .nil)
                          (.cons .int { out := true } (.cons .int { out := true } .nil)),
                        Flags.EMPTY⟩,
                       ⟨.int, Flags.EMPTY⟩],
              blocks := [⟨[], [], none⟩] },
    blockId := 0 }

/-- The instruction sequence `Builder::apply` emits for `applyExB`. -/
def applyExInstrs : List Instr :=
  [.stackAlloc 2 .int, .stackAlloc 3 .int, .stackAlloc 4 .int,
   .store 1 4, .apply [] 0 [] [2, 3, 4], .stackFree 4,
   .load 5 2, .stackFree 2, .load 6 3, .stackFree 3]

/-- C3: `Builder::apply` on a callee with two `OUT` returns and one `IN`
parameter emits the rewrite exactly as described — leading `OUT` slots,
an `IN` slot with the argument stored, the `Apply`, the `IN` slot freed,
then each `OUT` slot loaded, freed and its value inserted in source
position — but the `OUT` slots are freed in **allocation** order (slot 2
before slot 3), so the synthesized `StackAlloc`/`StackFree` pairs do not
obey LIFO: the stack simulation rejects the sequence.  This contradicts
`stack_free`'s own documentation ("deallocated in reverse order from how
they were allocated"). -/
theorem apply_out_slots_not_lifo_eval :
    (applyExB.applyB 0 [] [1]).map (fun r => (r.1.blockInstrsD 0, r.2)) =
      some (applyExInstrs, [5, 6]) ∧
    lifoOk applyExInstrs = false ∧
    (applyExInstrs.take 2 = [.stackAlloc 2 .int, .stackAlloc 3 .int] ∧
     applyExInstrs.drop 6 = [.load 5 2, .stackFree 2, .load 6 3, .stackFree 3]) := by
  refine ⟨by decide, by decide, by decide, by decide⟩

end Ir

namespace Ir

theorem modifyAt_length {α : Type} (f : α → α) (i : Nat) (l : List α) :
    (modifyAt f i l).length = l.length := by
  induction l generalizing i with
  | nil => cases i <;> rfl
  | cons a t ih => cases i with
    | zero => rfl
    | succ n => simpa [modifyAt] using ih n

theorem modifyAt_get?_self {α : Type} (f : α → α) (i : Nat) (l : List α) :
    (modifyAt f i l).get? i = (l.get? i).map f := by
  induction l generalizing i with
  | nil => cases i <;> rfl
  | cons a t ih => cases i with
    | zero => rfl
    | succ n => simpa [modifyAt] using ih n

theorem modifyAt_get?_ne {α : Type} (f : α → α) (i j : Nat) (l : List α)
    (h : i ≠ j) : (modifyAt f i l).get? j = l.get? j := by
  induction l generalizing i j with
  | nil => cases i <;> rfl
  | cons a t ih =>
    cases i with
    | zero => cases j with
      | zero => exact absurd rfl h
      | succ m => rfl
    | succ n => cases j with
      | zero => rfl
      | succ m => simpa [modifyAt] using ih n m (fun hh => h (by simpa using hh))

theorem modifyAt_getElem?_self {α : Type} (f : α → α) (i : Nat) (l : List α) :
    (modifyAt f i l)[i]? = l[i]?.map f := by
  simpa [List.get?_eq_getElem?] using modifyAt_get?_self f i l

theorem modifyAt_getElem?_ne {α : Type} (f : α → α) (i j : Nat) (l : List α)
    (h : i ≠ j) : (modifyAt f i l)[j]? = l[j]? := by
  simpa [List.get?_eq_getElem?] using modifyAt_get?_ne f i j l h

/-- Effect of a successful `pushInstr`: the instruction is appended to
the current block and everything else is untouched. -/
theorem pushInstr_spec (b : Builder) (ins : Instr)
    (h : b.blockId < b.body.blocks.length) :
    ∃ b', b.pushInstr ins = some b' ∧
      b'.blockInstrsD b.blockId = b.blockInstrsD b.blockId ++ [ins] ∧
      (∀ j, j ≠ b.blockId → b'.blockInstrsD j = b.blockInstrsD j) ∧
      (∀ j, b'.blockParamsD j = b.blockParamsD j) ∧
      (∀ j, b'.blockTermD j = b.blockTermD j) ∧
      b'.body.vars = b.body.vars ∧
      b'.blockId = b.blockId ∧
      b'.body.blocks.length = b.body.blocks.length := by
  have hblk : b.body.blocks[b.blockId]? =
      some (b.body.blocks[b.blockId]) := List.getElem?_eq_getElem h
  refine ⟨{ b with body := { b.body with
      blocks := modifyAt (fun blk => { blk with instrs := blk.instrs ++ [ins] })
        b.blockId b.body.blocks } }, ?_, ?_, ?_, ?_, ?_, rfl, rfl,
      by simp [modifyAt_length]⟩
  · simp [Builder.pushInstr, h]
  · simp [Builder.blockInstrsD, modifyAt_getElem?_self, hblk]
  · intro j hj
    simp [Builder.blockInstrsD,
      modifyAt_getElem?_ne _ _ _ _ (fun hh => hj hh.symm)]
  · intro j
    by_cases hj : j = b.blockId
    · subst hj
      simp [Builder.blockParamsD, modifyAt_getElem?_self, hblk]
    · simp [Builder.blockParamsD,
        modifyAt_getElem?_ne _ _ _ _ (fun hh => hj hh.symm)]
  · intro j
    by_cases hj : j = b.blockId
    · subst hj
      simp [Builder.blockTermD, modifyAt_getElem?_self, hblk]
    · simp [Builder.blockTermD,
        modifyAt_getElem?_ne _ _ _ _ (fun hh => hj hh.symm)]

end Ir

namespace Ir

/-- C5: `Builder::add_param` on a type of kind `Var(_)` creates the
parameter variable with the `INDIRECT` flag and pointer type `*T`; on any
other kind it creates it with empty flags and the given type.  In both
cases the variable is appended to the block's parameter list. -/
theorem add_param_spec (b : Builder) (blockId : Nat) (ty : Ty)
    (h : blockId < b.body.blocks.length) :
    ∃ b' v, b.addParam blockId ty = some (b', v) ∧
      v = b.body.vars.length ∧
      (ty.isVar = true →
        b'.body.getVar v = some ⟨Ty.ptr ty, Flags.INDIRECT⟩) ∧
      (ty.isVar = false →
        b'.body.getVar v = some ⟨ty, Flags.EMPTY⟩) ∧
      b'.blockParamsD blockId = b.blockParamsD blockId ++ [b.body.vars.length] := by
  have hblk : b.body.blocks[blockId]? = some (b.body.blocks[blockId]) :=
    List.getElem?_eq_getElem h
  by_cases hv : ty.isVar
  · refine ⟨{ b with body := { b.body with
        vars := modifyAt (fun vi => { vi with flags := Flags.INDIRECT })
          b.body.vars.length (b.body.vars ++ [⟨Ty.mkPtr ty, Flags.EMPTY⟩]),
        blocks := modifyAt (fun blk => { blk with params := blk.params ++ [b.body.vars.length] })
          blockId b.body.blocks } },
      b.body.vars.length, ?_, rfl, ?_, ?_, ?_⟩
    · simp [Builder.addParam, Builder.createVar, Builder.setVarFlags, hv, h]
    · intro _
      simp [Body.getVar, Ty.mkPtr, modifyAt_getElem?_self,
        List.getElem?_concat_length]
    · intro hfalse
      rw [hv] at hfalse
      cases hfalse
    · simp [Builder.blockParamsD, modifyAt_getElem?_self, hblk]
  · refine ⟨{ b with body := { b.body with
        vars := b.body.vars ++ [⟨ty, Flags.EMPTY⟩],
        blocks := modifyAt (fun blk => { blk with params := blk.params ++ [b.body.vars.length] })
          blockId b.body.blocks } },
      b.body.vars.length, ?_, rfl, ?_, ?_, ?_⟩
    · simp [Builder.addParam, Builder.createVar, hv, h]
    · intro htrue
      exact absurd htrue hv
    · intro _
      simp [Body.getVar, List.getElem?_concat_length]
    · simp [Builder.blockParamsD, modifyAt_getElem?_self, hblk]

/-- A one-block body with no variables, to instantiate theorems. -/
def emptyB : Builder :=
  { body := { genericParams := 0, vars := [], blocks := [⟨[], [], none⟩] },
    blockId := 0 }

/-- Witness for C5 at the concrete input `add_param(ENTRY, Var(0,0))`. -/
theorem add_param_spec_witness :
    ∃ b' v, emptyB.addParam 0 (.tvar 0 0) = some (b', v) ∧
      v = emptyB.body.vars.length ∧
      ((Ty.tvar 0 0).isVar = true →
        b'.body.getVar v = some ⟨Ty.ptr (.tvar 0 0), Flags.INDIRECT⟩) ∧
      ((Ty.tvar 0 0).isVar = false →
        b'.body.getVar v = some ⟨Ty.tvar 0 0, Flags.EMPTY⟩) ∧
      b'.blockParamsD 0 = emptyB.blockParamsD 0 ++ [emptyB.body.vars.length] :=
  add_param_spec emptyB 0 (.tvar 0 0) (by decide)

end Ir

namespace Ir

/-- C8: with a valid current block, `Builder::store` succeeds — appending
exactly one `Store` instruction — precisely when the address type is a
pointer to the value's type, and `Builder::copy_addr` succeeds —
appending exactly one `CopyAddr` — precisely when both operands are
pointers to one same type.  In every other case the construction is
fatal (`none`, the modelled panic) and no instruction is appended. -/
theorem store_copy_addr_typecheck (b : Builder)
    (hC : b.blockId < b.body.blocks.length) :
    (∀ val addr,
      (∃ b', b.storeB val addr = some b' ∧
        b'.blockInstrsD b.blockId = b.blockInstrsD b.blockId ++ [.store val addr]) ↔
      ∃ t, b.body.varType val = some t ∧ b.body.varType addr = some (Ty.ptr t)) ∧
    (∀ old new f,
      (∃ b', b.copyAddrB old new f = some b' ∧
        b'.blockInstrsD b.blockId = b.blockInstrsD b.blockId ++ [.copyAddr old new f]) ↔
      ∃ t, b.body.varType old = some (Ty.ptr t) ∧
        b.body.varType new = some (Ty.ptr t)) := by
  constructor
  · intro val addr
    constructor
    · rintro ⟨b', hb', -⟩
      unfold Builder.storeB at hb'
      split at hb'
      · rename_i pointee haddr
        split at hb'
        · rename_i tv hval
          split at hb'
          · rename_i heq
            exact ⟨tv, hval, heq ▸ haddr⟩
          · cases hb'
        · cases hb'
      · cases hb'
    · rintro ⟨t, hval, haddr⟩
      obtain ⟨b', hsome, hinstrs, -⟩ := pushInstr_spec b (.store val addr) hC
      refine ⟨b', ?_, hinstrs⟩
      unfold Builder.storeB
      rw [haddr, hval]
      simpa using hsome
  · intro old new f
    constructor
    · rintro ⟨b', hb', -⟩
      unfold Builder.copyAddrB at hb'
      split at hb'
      · rename_i tOld hold
        split at hb'
        · rename_i tNew hnew
          split at hb'
          · rename_i heq
            exact ⟨tOld, hold, heq ▸ hnew⟩
          · cases hb'
        · cases hb'
      · cases hb'
    · rintro ⟨t, hold, hnew⟩
      obtain ⟨b', hsome, hinstrs, -⟩ := pushInstr_spec b (.copyAddr old new f) hC
      refine ⟨b', ?_, hinstrs⟩
      unfold Builder.copyAddrB
      rw [hold, hnew]
      simpa using hsome

/-- A builder holding an `int` variable (0) and a `*int` variable (1). -/
def typedB : Builder :=
  { body := { genericParams := 0,
              vars := [⟨.int, Flags.EMPTY⟩, ⟨.ptr .int, Flags.EMPTY⟩],
              blocks := [⟨[], [], none⟩] },
    blockId := 0 }

/-- Witness for C8: on `typedB`, `store(0, 1)` succeeds because variable
1 has type `*int` and variable 0 has type `int`, and `copy_addr(1, 1)`
succeeds because both operands have type `*int`. -/
theorem store_copy_addr_typecheck_witness :
    ((∃ b', typedB.storeB 0 1 = some b' ∧
        b'.blockInstrsD typedB.blockId =
          typedB.blockInstrsD typedB.blockId ++ [.store 0 1]) ↔
      ∃ t, typedB.body.varType 0 = some t ∧
        typedB.body.varType 1 = some (Ty.ptr t)) ∧
    ((∃ b', typedB.copyAddrB 1 1 Flags.EMPTY = some b' ∧
        b'.blockInstrsD typedB.blockId =
          typedB.blockInstrsD typedB.blockId ++ [.copyAddr 1 1 Flags.EMPTY]) ↔
      ∃ t, typedB.body.varType 1 = some (Ty.ptr t) ∧
        typedB.body.varType 1 = some (Ty.ptr t)) :=
  ⟨(store_copy_addr_typecheck typedB (by decide)).1 0 1,
   (store_copy_addr_typecheck typedB (by decide)).2 1 1 Flags.EMPTY⟩

end Ir

namespace Ir

/-- Effect of `createVar`: the fresh index is the old arena size, carries
the given type with empty flags, and nothing else changes. -/
theorem createVar_spec (b : Builder) (ty : Ty) :
    (b.createVar ty).2 = b.body.vars.length ∧
    (b.createVar ty).1.body.getVar b.body.vars.length = some ⟨ty, Flags.EMPTY⟩ ∧
    (∀ w, w < b.body.vars.length →
      (b.createVar ty).1.body.getVar w = b.body.getVar w) ∧
    (b.createVar ty).1.body.blocks = b.body.blocks ∧
    (b.createVar ty).1.blockId = b.blockId ∧
    (b.createVar ty).1.body.vars.length = b.body.vars.length + 1 := by
  refine ⟨rfl, ?_, ?_, rfl, rfl, by simp [Builder.createVar]⟩
  · simp [Builder.createVar, Body.getVar, List.getElem?_concat_length]
  · intro w hw
    simp [Builder.createVar, Body.getVar, List.getElem?_append_left hw]

/-- Effect of `setVarFlags`: only the flags of the indexed variable
change. -/
theorem setVarFlags_spec (b : Builder) (v : Nat) (f : Flags) :
    (b.setVarFlags v f).body.getVar v =
      (b.body.getVar v).map (fun vi => { vi with flags := f }) ∧
    (∀ w, w ≠ v → (b.setVarFlags v f).body.getVar w = b.body.getVar w) ∧
    (b.setVarFlags v f).body.blocks = b.body.blocks ∧
    (b.setVarFlags v f).blockId = b.blockId ∧
    (b.setVarFlags v f).body.vars.length = b.body.vars.length := by
  refine ⟨?_, ?_, rfl, rfl, by simp [Builder.setVarFlags, modifyAt_length]⟩
  · simp [Builder.setVarFlags, Body.getVar, modifyAt_getElem?_self]
  · intro w hw
    simp [Builder.setVarFlags, Body.getVar,
      modifyAt_getElem?_ne _ _ _ _ (fun hh => hw hh.symm)]

/-- Effect of a successful `insertEntryParam0`: the parameter is
prepended to the entry block's parameter list and nothing else changes. -/
theorem insertEntryParam0_spec (b : Builder) (param : Nat)
    (h : 0 < b.body.blocks.length) :
    ∃ b', b.insertEntryParam0 param = some b' ∧
      b'.entryParamsD = param :: b.entryParamsD ∧
      (∀ j, j ≠ 0 → b'.blockParamsD j = b.blockParamsD j) ∧
      (∀ j, b'.blockInstrsD j = b.blockInstrsD j) ∧
      (∀ j, b'.blockTermD j = b.blockTermD j) ∧
      b'.body.vars = b.body.vars ∧
      b'.blockId = b.blockId ∧
      b'.body.blocks.length = b.body.blocks.length := by
  have hblk : b.body.blocks[0]? = some (b.body.blocks[0]) :=
    List.getElem?_eq_getElem h
  refine ⟨{ b with body := { b.body with
      blocks := modifyAt (fun blk => { blk with params := param :: blk.params })
        0 b.body.blocks } }, ?_, ?_, ?_, ?_, ?_, rfl, rfl,
      by simp [modifyAt_length]⟩
  · simp [Builder.insertEntryParam0, h]
  · simp [Builder.entryParamsD, Builder.blockParamsD, modifyAt_getElem?_self, hblk]
  · intro j hj
    simp [Builder.blockParamsD,
      modifyAt_getElem?_ne _ _ _ _ (fun hh => hj hh.symm)]
  · intro j
    by_cases hj : j = 0
    · subst hj
      simp [Builder.blockInstrsD, modifyAt_getElem?_self, hblk]
    · simp [Builder.blockInstrsD,
        modifyAt_getElem?_ne _ _ _ _ (fun hh => hj hh.symm)]
  · intro j
    by_cases hj : j = 0
    · subst hj
      simp [Builder.blockTermD, modifyAt_getElem?_self, hblk]
    · simp [Builder.blockTermD,
        modifyAt_getElem?_ne _ _ _ _ (fun hh => hj hh.symm)]

/-- A successful `copy_addr` when both operands are pointers to the same
type: delegates to `pushInstr`. -/
theorem copyAddrB_some (b : Builder) (old new : Nat) (f : Flags) (t : Ty)
    (hold : b.body.varType old = some (Ty.ptr t))
    (hnew : b.body.varType new = some (Ty.ptr t))
    (hC : b.blockId < b.body.blocks.length) :
    ∃ b', b.copyAddrB old new f = some b' ∧
      b'.blockInstrsD b.blockId = b.blockInstrsD b.blockId ++ [.copyAddr old new f] ∧
      (∀ j, j ≠ b.blockId → b'.blockInstrsD j = b.blockInstrsD j) ∧
      (∀ j, b'.blockParamsD j = b.blockParamsD j) ∧
      (∀ j, b'.blockTermD j = b.blockTermD j) ∧
      b'.body.vars = b.body.vars ∧
      b'.blockId = b.blockId ∧
      b'.body.blocks.length = b.body.blocks.length := by
  obtain ⟨b', hsome, hrest⟩ := pushInstr_spec b (.copyAddr old new f) hC
  refine ⟨b', ?_, hrest⟩
  unfold Builder.copyAddrB
  rw [hold, hnew]
  simpa using hsome

end Ir

namespace Ir

/-- Index bound from a successful variable lookup. -/
theorem getVar_lt {b : Body} {v : Nat} {vi : VarInfo}
    (h : b.getVar v = some vi) : v < b.vars.length := by
  unfold Body.getVar at h
  exact (List.get?_eq_some.mp h).1

/-- Effect of `freshReturnParam` on an indirect operand of pointer type:
a fresh variable of the operand's type is created, flagged `RETURN`,
prepended to the entry parameters, and a `CopyAddr` from the operand to
it is emitted; everything else is untouched. -/
theorem freshReturnParam_spec (b : Builder) (op : Nat) (vi : VarInfo) (t : Ty)
    (hop : b.body.getVar op = some vi) (hty : vi.ty = Ty.ptr t)
    (hE : 0 < b.body.blocks.length) (hC : b.blockId < b.body.blocks.length) :
    ∃ b', b.freshReturnParam op vi = some b' ∧
      b'.entryParamsD = b.body.vars.length :: b.entryParamsD ∧
      (∀ j, j ≠ 0 → b'.blockParamsD j = b.blockParamsD j) ∧
      b'.blockInstrsD b.blockId = b.blockInstrsD b.blockId ++
        [.copyAddr op b.body.vars.length Flags.EMPTY] ∧
      (∀ j, j ≠ b.blockId → b'.blockInstrsD j = b.blockInstrsD j) ∧
      (∀ j, b'.blockTermD j = b.blockTermD j) ∧
      b'.body.getVar b.body.vars.length = some ⟨vi.ty, Flags.RETURN⟩ ∧
      (∀ w, w < b.body.vars.length → b'.body.getVar w = b.body.getVar w) ∧
      b'.blockId = b.blockId ∧
      b'.body.blocks.length = b.body.blocks.length ∧
      b.body.vars.length < b'.body.vars.length := by
  have hlt : op < b.body.vars.length := getVar_lt hop
  obtain ⟨hv2, hnew, hstab1, hblocks1, hbid1, hlen1⟩ := createVar_spec b vi.ty
  obtain ⟨hset_self, hset_other, hblocks2, hbid2, hlen2⟩ :=
    setVarFlags_spec (b.createVar vi.ty).1 (b.createVar vi.ty).2 Flags.RETURN
  rw [hv2] at hset_self hset_other hblocks2 hbid2 hlen2
  have hE2 : 0 < ((b.createVar vi.ty).1.setVarFlags b.body.vars.length
      Flags.RETURN).body.blocks.length := by
    rw [hblocks2, hblocks1]; exact hE
  obtain ⟨b3, hins, hentry3, hparams3, hinstrs3, hterm3, hvars3, hbid3, hlen3⟩ :=
    insertEntryParam0_spec _ b.body.vars.length hE2
  have hget3 : ∀ w, b3.body.getVar w =
      ((b.createVar vi.ty).1.setVarFlags b.body.vars.length
        Flags.RETURN).body.getVar w := by
    intro w; unfold Body.getVar; rw [hvars3]
  have hparamvi : b3.body.getVar b.body.vars.length = some ⟨vi.ty, Flags.RETURN⟩ := by
    rw [hget3, hset_self, hnew]; rfl
  have hopvi : b3.body.getVar op = some vi := by
    rw [hget3, hset_other op (Nat.ne_of_lt hlt), hstab1 op hlt, hop]
  have hopty : b3.body.varType op = some (Ty.ptr t) := by
    simp [Body.varType, hopvi, hty]
  have hparamty : b3.body.varType b.body.vars.length = some (Ty.ptr t) := by
    simp [Body.varType, hparamvi, hty]
  have hC3 : b3.blockId < b3.body.blocks.length := by
    rw [hbid3, hbid2, hbid1, hlen3, hblocks2, hblocks1]; exact hC
  obtain ⟨b4, hcpy, hinstr4, hinstrs4o, hparams4, hterm4, hvars4, hbid4, hlen4⟩ :=
    copyAddrB_some b3 op b.body.vars.length Flags.EMPTY t hopty hparamty hC3
  have hbid3' : b3.blockId = b.blockId := by rw [hbid3, hbid2, hbid1]
  refine ⟨b4, ?_, ?_, ?_, ?_, ?_, ?_, ?_, ?_, ?_, ?_, ?_⟩
  · show b.freshReturnParam op vi = some b4
    unfold Builder.freshReturnParam
    simp only [hv2, hins]
    exact hcpy
  · have h40 : b4.entryParamsD = b3.entryParamsD := hparams4 0
    rw [h40, hentry3]
    rfl
  · intro j hj
    rw [hparams4 j, hparams3 j hj]
    unfold Builder.blockParamsD
    rw [hblocks2, hblocks1]
  · have h1 : b4.blockInstrsD b3.blockId = b3.blockInstrsD b3.blockId ++
        [.copyAddr op b.body.vars.length Flags.EMPTY] := hinstr4
    rw [hbid3'] at h1
    rw [h1, hinstrs3]
    unfold Builder.blockInstrsD
    rw [hblocks2, hblocks1]
  · intro j hj
    rw [← hbid3'] at hj
    rw [hinstrs4o j hj, hinstrs3 j]
    unfold Builder.blockInstrsD
    rw [hblocks2, hblocks1]
  · intro j
    rw [hterm4 j, hterm3 j]
    unfold Builder.blockTermD
    rw [hblocks2, hblocks1]
  · have hv4 : b4.body.getVar b.body.vars.length =
        b3.body.getVar b.body.vars.length := by
      unfold Body.getVar; rw [hvars4]
    rw [hv4]
    exact hparamvi
  · intro w hw
    have hv4 : b4.body.getVar w = b3.body.getVar w := by
      unfold Body.getVar; rw [hvars4]
    rw [hv4, hget3 w, hset_other w (Nat.ne_of_lt hw), hstab1 w hw]
  · rw [hbid4, hbid3']
  · rw [hlen4, hlen3, hblocks2, hblocks1]
  · calc b.body.vars.length < b.body.vars.length + 1 := Nat.lt_succ_self _
      _ = (b.createVar vi.ty).1.body.vars.length := hlen1.symm
      _ = ((b.createVar vi.ty).1.setVarFlags b.body.vars.length
            Flags.RETURN).body.vars.length := hlen2.symm
      _ = b3.body.vars.length := by rw [hvars3]
      _ = b4.body.vars.length := by rw [hvars4]

end Ir

namespace Ir

/-- The `return_` rewrite loop when no pre-existing entry parameter
carries the `RETURN` flag: every `INDIRECT` operand takes the fresh-param
path.  The loop keeps exactly the non-indirect operands, creates one
`RETURN`-flagged entry parameter per indirect operand (prepended, so the
final parameter list is the reversed creation order in front of the old
parameters), and emits one `CopyAddr` per indirect operand. -/
theorem returnLoop_fresh (ops : List Nat) : ∀ (b : Builder) (i : Nat),
    0 < b.body.blocks.length →
    b.blockId < b.body.blocks.length →
    (∀ j, i ≤ j → ∀ p, b.entryParamsD.get? j = some p →
      ∃ pvi, b.body.getVar p = some pvi ∧ pvi.flags.ret = false) →
    (∀ op ∈ ops, ∃ vi, b.body.getVar op = some vi ∧
      (vi.flags.indirect = true → ∃ t, vi.ty = Ty.ptr t)) →
    ∃ b' newPs,
      b.returnLoop i ops =
        some (b', ops.filter (fun op => !(b.isIndirect op))) ∧
      newPs.length = (ops.filter (fun op => b.isIndirect op)).length ∧
      b'.entryParamsD = newPs.reverse ++ b.entryParamsD ∧
      (∀ p ∈ newPs, ∃ pvi, b'.body.getVar p = some pvi ∧ pvi.flags.ret = true) ∧
      b'.blockInstrsD b.blockId = b.blockInstrsD b.blockId ++
        ((ops.filter (fun op => b.isIndirect op)).zip newPs).map
          (fun pr => Instr.copyAddr pr.1 pr.2 Flags.EMPTY) ∧
      b'.blockId = b.blockId ∧
      b'.body.blocks.length = b.body.blocks.length ∧
      (∀ w, w < b.body.vars.length → b'.body.getVar w = b.body.getVar w) ∧
      b.body.vars.length ≤ b'.body.vars.length ∧
      (∀ j, b'.blockTermD j = b.blockTermD j) := by
  induction ops with
  | nil =>
      intro b i _ _ _ _
      exact ⟨b, [], rfl, rfl, rfl, by simp, by simp [Builder.returnLoop], rfl, rfl,
        fun w _ => rfl, Nat.le_refl _, fun j => rfl⟩
  | cons op rest ih =>
      intro b i hE hC hTail hO
      obtain ⟨vi, hvi, hptr⟩ := hO op (List.mem_cons_self op rest)
      cases hind : vi.flags.indirect with
      | true =>
          have hIop : b.isIndirect op = true := by
            simp [Builder.isIndirect, hvi, hind]
          obtain ⟨t, hty⟩ := hptr hind
          have hEget : b.body.blocks.get? 0 = some (b.body.blocks.get ⟨0, hE⟩) :=
            List.get?_eq_get hE
          have hEP : (b.body.blocks.get ⟨0, hE⟩).params = b.entryParamsD := by
            simp [Builder.entryParamsD, Builder.blockParamsD, ← List.get?_eq_getElem?,
              hEget]
          obtain ⟨b1, hfrp, hentry1, hparams1, hinstr1, hinstrs1o, hterm1,
            hparamvar1, hstab1, hbid1, hlen1, hvarlen1⟩ :=
            freshReturnParam_spec b op vi t hvi hty hE hC
          have hstep : b.returnLoop i (op :: rest) = b1.returnLoop (i + 1) rest := by
            simp only [Builder.returnLoop, hvi, hind, if_true, hEget]
            cases hpi : (b.body.blocks.get ⟨0, hE⟩).params.get? i with
            | none => simp only [hpi, hfrp]
            | some p =>
                obtain ⟨pvi, hpvi, hret⟩ := hTail i (Nat.le_refl i) p (by
                  rw [← hEP]; exact hpi)
                simp only [hpi, hpvi, hret, Bool.false_eq_true, if_false, hfrp]
          have hE1 : 0 < b1.body.blocks.length := by rw [hlen1]; exact hE
          have hC1 : b1.blockId < b1.body.blocks.length := by
            rw [hbid1, hlen1]; exact hC
          have hTail1 : ∀ j, i + 1 ≤ j → ∀ p, b1.entryParamsD.get? j = some p →
              ∃ pvi, b1.body.getVar p = some pvi ∧ pvi.flags.ret = false := by
            intro j hj p hp
            rw [hentry1] at hp
            cases j with
            | zero => exact absurd hj (by omega)
            | succ j' =>
                rw [List.get?_cons_succ] at hp
                obtain ⟨pvi, hpvi, hret⟩ := hTail j' (by omega) p hp
                exact ⟨pvi, by rw [hstab1 p (getVar_lt hpvi)]; exact hpvi, hret⟩
          have hO1 : ∀ op' ∈ rest, ∃ vi', b1.body.getVar op' = some vi' ∧
              (vi'.flags.indirect = true → ∃ t', vi'.ty = Ty.ptr t') := by
            intro op' hmem
            obtain ⟨vi', hvi', hptr'⟩ := hO op' (List.mem_cons_of_mem op hmem)
            exact ⟨vi', by rw [hstab1 op' (getVar_lt hvi')]; exact hvi', hptr'⟩
          obtain ⟨b2, newPs2, hloop2, hlen2', hentry2, hflags2, hinstr2, hbid2,
            hblen2, hstab2, hvlen2, hterm2⟩ := ih b1 (i + 1) hE1 hC1 hTail1 hO1
          have hfiltankle : ∀ x ∈ rest, b1.isIndirect x = b.isIndirect x := by
            intro x hmem
            obtain ⟨vix, hvix, -⟩ := hO x (List.mem_cons_of_mem op hmem)
            simp [Builder.isIndirect, hvix, hstab1 x (getVar_lt hvix)]
          have hfiltNeg : rest.filter (fun x => !(b1.isIndirect x)) =
              rest.filter (fun x => !(b.isIndirect x)) :=
            List.filter_congr (fun x hx => by rw [hfiltankle x hx])
          have hfiltPos : rest.filter (fun x => b1.isIndirect x) =
              rest.filter (fun x => b.isIndirect x) :=
            List.filter_congr (fun x hx => by rw [hfiltankle x hx])
          refine ⟨b2, b.body.vars.length :: newPs2, ?_, ?_, ?_, ?_, ?_, ?_, ?_, ?_, ?_, ?_⟩
          · rw [hstep, hloop2, hfiltNeg]
            have : (op :: rest).filter (fun x => !(b.isIndirect x)) =
                rest.filter (fun x => !(b.isIndirect x)) := by
              simp [List.filter_cons, hIop]
            rw [this]
          · simp only [List.filter_cons, hIop, if_true, List.length_cons]
            rw [hlen2', hfiltPos]
          · rw [hentry2, hentry1]
            simp [List.append_assoc]
          · intro p hp
            cases hp with
            | head =>
                refine ⟨⟨vi.ty, Flags.RETURN⟩, ?_, rfl⟩
                rw [hstab2 b.body.vars.length hvarlen1]
                exact hparamvar1
            | tail _ hmem => exact hflags2 p hmem
          · have hA : b2.blockInstrsD b1.blockId = b1.blockInstrsD b1.blockId ++
                ((rest.filter (fun x => b1.isIndirect x)).zip newPs2).map
                  (fun pr => Instr.copyAddr pr.1 pr.2 Flags.EMPTY) := hinstr2
            rw [hbid1] at hA
            rw [hA, hinstr1, hfiltPos]
            simp [List.filter_cons, hIop, List.append_assoc]
          · rw [hbid2, hbid1]
          · rw [hblen2, hlen1]
          · intro w hw
            rw [hstab2 w (Nat.lt_of_lt_of_le hw (Nat.le_of_lt hvarlen1)),
              hstab1 w hw]
          · exact Nat.le_trans (Nat.le_of_lt hvarlen1) hvlen2
          · intro j
            rw [hterm2 j, hterm1 j]
      | false =>
          have hIop : b.isIndirect op = false := by
            simp [Builder.isIndirect, hvi, hind]
          have hO' : ∀ op' ∈ rest, ∃ vi', b.body.getVar op' = some vi' ∧
              (vi'.flags.indirect = true → ∃ t', vi'.ty = Ty.ptr t') :=
            fun op' hmem => hO op' (List.mem_cons_of_mem op hmem)
          obtain ⟨b2, newPs2, hloop2, hlen2', hentry2, hflags2, hinstr2, hbid2,
            hblen2, hstab2, hvlen2, hterm2⟩ := ih b i hE hC hTail hO'
          refine ⟨b2, newPs2, ?_, ?_, hentry2, hflags2, ?_, hbid2, hblen2,
            hstab2, hvlen2, hterm2⟩
          · simp only [Builder.returnLoop, hvi, hind, Bool.false_eq_true,
              if_false, hloop2]
            simp [List.filter_cons, hIop]
          · rw [hlen2']
            simp [List.filter_cons, hIop]
          · rw [hinstr2]
            simp [List.filter_cons, hIop]

end Ir

namespace Ir

/-- Effect of a successful `setTermB`: the current block's terminator is
set and everything else is untouched. -/
theorem setTermB_spec (b : Builder) (t : Term)
    (h : b.blockId < b.body.blocks.length) :
    ∃ b', b.setTermB t = some b' ∧
      b'.blockTermD b.blockId = some t ∧
      (∀ j, j ≠ b.blockId → b'.blockTermD j = b.blockTermD j) ∧
      (∀ j, b'.blockParamsD j = b.blockParamsD j) ∧
      (∀ j, b'.blockInstrsD j = b.blockInstrsD j) ∧
      b'.body.vars = b.body.vars ∧
      b'.blockId = b.blockId ∧
      b'.body.blocks.length = b.body.blocks.length := by
  have hblk : b.body.blocks[b.blockId]? =
      some (b.body.blocks[b.blockId]) := List.getElem?_eq_getElem h
  refine ⟨{ b with body := { b.body with
      blocks := modifyAt (fun blk => { blk with term := some t })
        b.blockId b.body.blocks } }, ?_, ?_, ?_, ?_, ?_, rfl, rfl,
      by simp [modifyAt_length]⟩
  · simp [Builder.setTermB, h]
  · simp [Builder.blockTermD, modifyAt_getElem?_self, hblk]
  · intro j hj
    simp [Builder.blockTermD,
      modifyAt_getElem?_ne _ _ _ _ (fun hh => hj hh.symm)]
  · intro j
    by_cases hj : j = b.blockId
    · subst hj
      simp [Builder.blockParamsD, modifyAt_getElem?_self, hblk]
    · simp [Builder.blockParamsD,
        modifyAt_getElem?_ne _ _ _ _ (fun hh => hj hh.symm)]
  · intro j
    by_cases hj : j = b.blockId
    · subst hj
      simp [Builder.blockInstrsD, modifyAt_getElem?_self, hblk]
    · simp [Builder.blockInstrsD,
        modifyAt_getElem?_ne _ _ _ _ (fun hh => hj hh.symm)]

/-- C4: `Builder::return_`.  First part (no pre-existing `RETURN` entry
parameter): the terminator's operand list is exactly the non-`INDIRECT`
operands; each `INDIRECT` operand is removed and replaced by a
`CopyAddr(op, ret_param, EMPTY)` whose target is a fresh entry-block
parameter carrying the `RETURN` flag, inserted at position 0.  Second
part (a `RETURN`-flagged parameter of matching type already sits at the
checked position): it is reused — no parameter is inserted and the
`CopyAddr` targets it. -/
theorem return_rewrite_spec :
    (∀ (b : Builder) (ops : List Nat),
      0 < b.body.blocks.length →
      b.blockId < b.body.blocks.length →
      (∀ j p, b.entryParamsD.get? j = some p →
        ∃ pvi, b.body.getVar p = some pvi ∧ pvi.flags.ret = false) →
      (∀ op ∈ ops, ∃ vi, b.body.getVar op = some vi ∧
        (vi.flags.indirect = true → ∃ t, vi.ty = Ty.ptr t)) →
      ∃ b' newPs,
        b.returnB ops = some b' ∧
        b'.blockTermD b.blockId =
          some (.ret (ops.filter (fun op => !(b.isIndirect op)))) ∧
        newPs.length = (ops.filter (fun op => b.isIndirect op)).length ∧
        b'.entryParamsD = newPs.reverse ++ b.entryParamsD ∧
        (∀ p ∈ newPs, ∃ pvi, b'.body.getVar p = some pvi ∧
          pvi.flags.ret = true) ∧
        b'.blockInstrsD b.blockId = b.blockInstrsD b.blockId ++
          ((ops.filter (fun op => b.isIndirect op)).zip newPs).map
            (fun pr => Instr.copyAddr pr.1 pr.2 Flags.EMPTY)) ∧
    (∀ (b : Builder) (op p : Nat) (vi pvi : VarInfo) (t : Ty),
      0 < b.body.blocks.length →
      b.blockId < b.body.blocks.length →
      b.body.getVar op = some vi → vi.flags.indirect = true →
      vi.ty = Ty.ptr t →
      b.entryParamsD.get? 0 = some p →
      b.body.getVar p = some pvi → pvi.flags.ret = true →
      pvi.ty = Ty.ptr t →
      ∃ b', b.returnB [op] = some b' ∧
        b'.blockTermD b.blockId = some (.ret []) ∧
        b'.entryParamsD = b.entryParamsD ∧
        b'.blockInstrsD b.blockId = b.blockInstrsD b.blockId ++
          [.copyAddr op p Flags.EMPTY]) := by
  constructor
  · intro b ops hE hC hParams hO
    obtain ⟨b1, newPs, hloop, hlen, hentry, hflags, hinstr, hbid, hblen,
      hstab, hvlen, hterm⟩ :=
      returnLoop_fresh ops b 0 hE hC (fun j _ p hp => hParams j p hp) hO
    have hC1 : b1.blockId < b1.body.blocks.length := by
      rw [hbid, hblen]; exact hC
    obtain ⟨b2, hset, htermset, -, hparams2, hinstrs2, hvars2, hbid2, -⟩ :=
      setTermB_spec b1 (.ret (ops.filter (fun op => !(b.isIndirect op)))) hC1
    refine ⟨b2, newPs, ?_, ?_, hlen, ?_, ?_, ?_⟩
    · show b.returnB ops = some b2
      unfold Builder.returnB
      rw [hloop]
      exact hset
    · rw [← hbid]; exact htermset
    · have h20 : b2.entryParamsD = b1.entryParamsD := hparams2 0
      rw [h20, hentry]
    · intro q hq
      obtain ⟨pvi, hpvi, hret⟩ := hflags q hq
      refine ⟨pvi, ?_, hret⟩
      unfold Body.getVar at hpvi ⊢
      rw [hvars2]
      exact hpvi
    · rw [hinstrs2 b.blockId, hinstr]
  · intro b op p vi pvi t hE hC hvi hind hty hp0 hpvi hret hpty
    have hEget : b.body.blocks.get? 0 = some (b.body.blocks.get ⟨0, hE⟩) :=
      List.get?_eq_get hE
    have hEP : (b.body.blocks.get ⟨0, hE⟩).params = b.entryParamsD := by
      simp [Builder.entryParamsD, Builder.blockParamsD, ← List.get?_eq_getElem?,
        hEget]
    have hopty : b.body.varType op = some (Ty.ptr t) := by
      simp [Body.varType, hvi, hty]
    have hpty' : b.body.varType p = some (Ty.ptr t) := by
      simp [Body.varType, hpvi, hpty]
    obtain ⟨b1, hcpy, hinstr1, -, hparams1, hterm1, hvars1, hbid1, hblen1⟩ :=
      copyAddrB_some b op p Flags.EMPTY t hopty hpty' hC
    have hloop : b.returnLoop 0 [op] = some (b1, []) := by
      simp only [Builder.returnLoop, hvi, hind, if_true, hEget]
      rw [hEP, hp0]
      simp only [hpvi, hret, if_true, hcpy]
    have hC1 : b1.blockId < b1.body.blocks.length := by
      rw [hbid1, hblen1]; exact hC
    obtain ⟨b2, hset, htermset, -, hparams2, hinstrs2, hvars2, hbid2, -⟩ :=
      setTermB_spec b1 (.ret []) hC1
    refine ⟨b2, ?_, ?_, ?_, ?_⟩
    · show b.returnB [op] = some b2
      unfold Builder.returnB
      rw [hloop]
      exact hset
    · rw [← hbid1]; exact htermset
    · show b2.blockParamsD 0 = b.blockParamsD 0
      rw [hparams2 0, hparams1 0]
    · rw [hinstrs2 b.blockId, hinstr1]

end Ir

namespace Ir

/-- Fresh-path instance: variable 0 is an `INDIRECT` `*int`, variable 1 a
plain `int`; the entry block has no parameters. -/
def retFreshB : Builder :=
  { body := { genericParams := 0,
              vars := [⟨Ty.ptr .int, { indirect := true }⟩, ⟨.int, Flags.EMPTY⟩],
              blocks := [⟨[], [], none⟩] },
    blockId := 0 }

/-- Reuse instance: variable 0 is an `INDIRECT` `*int`; variable 1 is a
`RETURN`-flagged `*int` already installed as the first entry parameter. -/
def retReuseB : Builder :=
  { body := { genericParams := 0,
              vars := [⟨Ty.ptr .int, { indirect := true }⟩,
                       ⟨Ty.ptr .int, { ret := true }⟩],
              blocks := [⟨[1], [], none⟩] },
    blockId := 0 }

/-- Witness for C4: both parts of `return_rewrite_spec` applied at
concrete inputs — `return_([0, 1])` on `retFreshB` (inserting a fresh
`RETURN` parameter) and `return_([0])` on `retReuseB` (reusing the
existing one). -/
theorem return_rewrite_spec_witness :
    (∃ b' newPs, retFreshB.returnB [0, 1] = some b' ∧
      b'.blockTermD retFreshB.blockId =
        some (.ret ([0, 1].filter (fun op => !(retFreshB.isIndirect op)))) ∧
      newPs.length = ([0, 1].filter (fun op => retFreshB.isIndirect op)).length ∧
      b'.entryParamsD = newPs.reverse ++ retFreshB.entryParamsD ∧
      (∀ p ∈ newPs, ∃ pvi, b'.body.getVar p = some pvi ∧
        pvi.flags.ret = true) ∧
      b'.blockInstrsD retFreshB.blockId = retFreshB.blockInstrsD retFreshB.blockId ++
        (([0, 1].filter (fun op => retFreshB.isIndirect op)).zip newPs).map
          (fun pr => Instr.copyAddr pr.1 pr.2 Flags.EMPTY)) ∧
    (∃ b', retReuseB.returnB [0] = some b' ∧
      b'.blockTermD retReuseB.blockId = some (.ret []) ∧
      b'.entryParamsD = retReuseB.entryParamsD ∧
      b'.blockInstrsD retReuseB.blockId = retReuseB.blockInstrsD retReuseB.blockId ++
        [.copyAddr 0 1 Flags.EMPTY]) := by
  constructor
  · refine return_rewrite_spec.1 retFreshB [0, 1] (by decide) (by decide) ?_ ?_
    · intro j p h
      rw [show retFreshB.entryParamsD = ([] : List Nat) from rfl] at h
      cases j <;> simp at h
    · intro op hmem
      have : op = 0 ∨ op = 1 := by simpa using hmem
      rcases this with h | h <;> subst h
      · exact ⟨⟨Ty.ptr .int, { indirect := true }⟩, rfl,
          fun _ => ⟨.int, rfl⟩⟩
      · exact ⟨⟨.int, Flags.EMPTY⟩, rfl, fun h => absurd h (by decide)⟩
  · exact return_rewrite_spec.2 retReuseB 0 1
      ⟨Ty.ptr .int, { indirect := true }⟩ ⟨Ty.ptr .int, { ret := true }⟩ .int
      (by decide) (by decide) rfl rfl rfl rfl rfl rfl rfl

end Ir

namespace ConstMat

/-!
Model of `ClifBackend::alloc_const` and its inner `rec`
(`codegen_cranelift/src/const_.rs`).  A `TyLayout` is reduced to what
`rec` consults: its byte size and, for `Arbitrary` field shapes, the
field offsets paired with the field layouts (`layout.field(j)`).
Relocation bookkeeping (`write_function_addr` / `write_data_addr`) and
the separate symbol allocated for `Const::Ptr` do not affect the byte
buffer and are not modelled; the `Variant` arm is likewise outside the
claims.  `u128::to_ne_bytes` is modelled little-endian.  A slice
`[..size]` with `size > 16` panics in Rust; the model truncates, and the
flatness side conditions below keep sizes within 16.
-/

/-- Layout: `Primitive`-shaped (scalar) or `Arbitrary { offsets }` with
the field layouts attached. -/
inductive Layout where
  | prim (size : Nat)
  | arb (size : Nat) (fields : List (Nat × Layout))

/-- `layout.size.bytes()`. -/
def Layout.size : Layout → Nat
  | .prim s => s
  | .arb s _ => s

/-- `ir::Const` restricted to the arms `rec` handles (minus `Variant`). -/
inductive Const where
  | undef
  | scalar (v : Nat)
  | addr (func : Nat)
  | ptrC (inner : Const)
  | tuple (cs : List Const)

/-- `u128::to_ne_bytes` on a little-endian host: 16 bytes, least
significant first. -/
def neBytes (v : Nat) : List Nat :=
  (List.range 16).map (fun i => v / 2 ^ (8 * i) % 256)

mutual

/-- The recursive constant writer `rec` (const_.rs lines 31-112):
`Undefined` resizes by `size` zeros; `Scalar` appends
`to_ne_bytes()[..size]`; `Addr` and `Ptr` reserve `size` zero bytes (the
relocation is written into the data context, not the buffer);
`Tuple` with an `Arbitrary` shape walks the fields, padding the buffer to
each offset (`offsets[i] - cursor` zeros, with the cursor advanced by the
declared field sizes); a `Tuple` against any other shape is
`unimplemented!()`. -/
def recC : Const → Layout → List Nat → Option (List Nat)
  | .undef, l, bytes => some (bytes ++ List.replicate l.size 0)
  | .scalar v, l, bytes => some (bytes ++ (neBytes v).take l.size)
  | .addr _, l, bytes => some (bytes ++ List.replicate l.size 0)
  | .ptrC _, l, bytes => some (bytes ++ List.replicate l.size 0)
  | .tuple cs, .arb _ fields, bytes => recTuple cs fields 0 bytes
  | .tuple _, .prim _, _ => none

/-- The field loop of the `Tuple` arm: `cs.iter().zip(offsets)` with
cursor `i`; the zip stops at the shorter list. -/
def recTuple : List Const → List (Nat × Layout) → Nat → List Nat →
    Option (List Nat)
  | [], _, _, bytes => some bytes
  | _, [], _, bytes => some bytes
  | c :: cs, (off, fl) :: fields, i, bytes =>
    match recC c fl (bytes ++ List.replicate (off - i) 0) with
    | none => none
    | some bytes2 => recTuple cs fields (off + fl.size) bytes2

end

/-- `ClifBackend::alloc_const` (const_.rs lines 7-120): run `rec` on an
empty buffer, then `bytes.resize(bytes.capacity(), 0)` — the capacity is
the pre-declared `layout.size`; when the content outgrew it the Vec has
reallocated to some capacity at least the length, modelled as no extra
padding. -/
def alloc_const (c : Const) (l : Layout) : Option (List Nat) :=
  match recC c l [] with
  | none => none
  | some bytes => some (bytes ++ List.replicate (l.size - bytes.length) 0)

/-- The bytes a non-aggregate ("flat") constant writes for a layout. -/
def flatBytes (c : Const) (l : Layout) : List Nat :=
  match c with
  | .scalar v => (neBytes v).take l.size
  | _ => List.replicate l.size 0

/-- A constant is flat for a layout when `rec` writes exactly
`layout.size` bytes for it: everything except tuples, with scalar sizes
within the 16 bytes of a `u128`. -/
def isFlat (c : Const) (l : Layout) : Bool :=
  match c with
  | .undef => true
  | .addr _ => true
  | .ptrC _ => true
  | .scalar _ => decide (l.size ≤ 16)
  | .tuple _ => false

/-- Offsets leave room for each field: the running cursor (declared
offsets plus declared sizes) never moves backwards. -/
def wellSpaced : Nat → List (Nat × Layout) → Bool
  | _, [] => true
  | i, (off, fl) :: rest => decide (i ≤ off) && wellSpaced (off + fl.size) rest

/-- The cursor after the last field. -/
def endCursor : Nat → List (Nat × Layout) → Nat
  | i, [] => i
  | _, (off, fl) :: rest => endCursor (off + fl.size) rest

theorem neBytes_length (v : Nat) : (neBytes v).length = 16 := by
  simp [neBytes]

theorem flatBytes_length {c : Const} {l : Layout} (h : isFlat c l = true) :
    (flatBytes c l).length = l.size := by
  cases c <;> simp_all [flatBytes, isFlat, neBytes_length]

theorem recC_flat {c : Const} {l : Layout} (h : isFlat c l = true)
    (bytes : List Nat) : recC c l bytes = some (bytes ++ flatBytes c l) := by
  cases c <;> simp_all [recC, flatBytes, isFlat]

theorem endCursor_ge : ∀ (fields : List (Nat × Layout)) (i : Nat),
    wellSpaced i fields = true → i ≤ endCursor i fields := by
  intro fields
  induction fields with
  | nil => intro i _; exact Nat.le_refl i
  | cons hd tl ih =>
      intro i hws
      obtain ⟨off, fl⟩ := hd
      simp only [wellSpaced, Bool.and_eq_true, decide_eq_true_eq] at hws
      calc i ≤ off := hws.1
        _ ≤ off + fl.size := Nat.le_add_right _ _
        _ ≤ endCursor (off + fl.size) tl := ih _ hws.2

theorem recTuple_flat :
    ∀ (cs : List Const) (fields : List (Nat × Layout)) (bytes : List Nat),
    cs.length = fields.length →
    (∀ pr ∈ cs.zip fields, isFlat pr.1 pr.2.2 = true) →
    wellSpaced bytes.length fields = true →
    ∃ out, recTuple cs fields bytes.length bytes = some out ∧
      out.length = endCursor bytes.length fields ∧
      (∃ tail, out = bytes ++ tail) ∧
      (∀ j c off fl, cs.get? j = some c → fields.get? j = some (off, fl) →
        (out.drop off).take fl.size = flatBytes c fl ∧
        off + fl.size ≤ out.length) := by
  intro cs
  induction cs with
  | nil =>
      intro fields bytes hlen _ _
      have hf : fields = [] := List.eq_nil_of_length_eq_zero hlen.symm
      subst hf
      exact ⟨bytes, rfl, rfl, ⟨[], by simp⟩, by intro j c off fl hc _; cases hc⟩
  | cons c cs' ih =>
      intro fields bytes hlen hflat hws
      cases fields with
      | nil => cases hlen
      | cons hd tl =>
          obtain ⟨off, fl⟩ := hd
          simp only [wellSpaced, Bool.and_eq_true, decide_eq_true_eq] at hws
          have hflatHead : isFlat c fl = true :=
            hflat (c, (off, fl)) (by simp [List.zip_cons_cons])
          have hlen1 : (bytes ++ List.replicate (off - bytes.length) 0).length = off := by
            simp [Nat.add_sub_cancel' hws.1]
          have hrecC := recC_flat hflatHead (bytes ++ List.replicate (off - bytes.length) 0)
          have hble : bytes.length ≤ off := hws.1
          have hlen2 : ((bytes ++ List.replicate (off - bytes.length) 0) ++
              flatBytes c fl).length = off + fl.size := by
            simp only [List.length_append, List.length_replicate,
              flatBytes_length hflatHead]
            omega
          have hws2 : wellSpaced ((bytes ++ List.replicate (off - bytes.length) 0)
              ++ flatBytes c fl).length tl = true := by
            rw [hlen2]; exact hws.2
          obtain ⟨out, hrec, hlen3, ⟨tail, htail⟩, hplace⟩ :=
            ih tl ((bytes ++ List.replicate (off - bytes.length) 0) ++ flatBytes c fl)
              (by simpa using hlen) (fun pr hpr => hflat pr (by
                simp only [List.zip_cons_cons]
                exact List.mem_cons_of_mem _ hpr)) hws2
          rw [hlen2] at hrec hlen3
          refine ⟨out, ?_, ?_, ?_, ?_⟩
          · simp only [recTuple, hrecC]
            exact hrec
          · rw [hlen3]
            rfl
          · exact ⟨List.replicate (off - bytes.length) 0 ++ flatBytes c fl ++ tail,
              by simp [htail]⟩
          · intro j cj offj flj hcj hfj
            cases j with
            | zero =>
                rw [List.get?_cons_zero] at hcj hfj
                injection hcj with hc1
                injection hfj with hf1
                injection hf1 with ho1 hfl1
                subst hc1
                subst ho1
                subst hfl1
                have hdrop : out.drop off = flatBytes c fl ++ tail := by
                  rw [htail, List.append_assoc]
                  have hdl := List.drop_left
                    (bytes ++ List.replicate (off - bytes.length) 0)
                    (flatBytes c fl ++ tail)
                  rw [hlen1] at hdl
                  exact hdl
                constructor
                · rw [hdrop, ← flatBytes_length hflatHead, List.take_left]
                · rw [hlen3]
                  have hge := endCursor_ge tl (off + fl.size) hws.2
                  omega
            | succ j' =>
                rw [List.get?_cons_succ] at hcj hfj
                exact hplace j' cj offj flj hcj hfj

/-- C7 (amended): for a tuple constant over an `Arbitrary` layout whose
fields are all flat (each field's materialization writes exactly its
declared size) and whose offsets are well spaced within the declared
size, `alloc_const` places field `j`'s bytes exactly at `offsets[j]` and
the final blob is exactly `size` bytes. -/
theorem tuple_flat_fields_placed (size : Nat) (fields : List (Nat × Layout))
    (cs : List Const)
    (hlen : cs.length = fields.length)
    (hflat : ∀ pr ∈ cs.zip fields, isFlat pr.1 pr.2.2 = true)
    (hspace : wellSpaced 0 fields = true)
    (hfit : endCursor 0 fields ≤ size) :
    ∃ blob, alloc_const (.tuple cs) (.arb size fields) = some blob ∧
      blob.length = size ∧
      ∀ j c off fl, cs.get? j = some c → fields.get? j = some (off, fl) →
        (blob.drop off).take fl.size = flatBytes c fl := by
  obtain ⟨out, hrec, hlen3, -, hplace⟩ :=
    recTuple_flat cs fields [] hlen hflat (by simpa using hspace)
  simp only [List.length_nil] at hrec hlen3
  refine ⟨out ++ List.replicate (size - out.length) 0, ?_, ?_, ?_⟩
  · unfold alloc_const
    simp only [recC, hrec, Layout.size]
  · rw [List.length_append, List.length_replicate]
    rw [hlen3]
    omega
  · intro j c off fl hcj hfj
    obtain ⟨hpl, hle⟩ := hplace j c off fl hcj hfj
    have hoff : off ≤ out.length := by omega
    rw [List.drop_append_eq_append_drop,
      show off - out.length = 0 from by omega, List.drop_zero,
      List.take_append_of_le_length (by rw [List.length_drop]; omega)]
    exact hpl

end ConstMat

namespace ConstMat

/-- Inner tuple layout: one byte-sized field at offset 0, padded to a
declared size of 4 bytes. -/
def innerL : Layout := .arb 4 [(0, .prim 1)]

/-- Outer tuple layout: the inner tuple at offset 0, a one-byte field at
offset 4, total size 5. -/
def outerL : Layout := .arb 5 [(0, innerL), (4, .prim 1)]

/-- The constant `((5,), 7)` against `outerL`. -/
def cEx : Const := .tuple [.tuple [.scalar 5], .scalar 7]

/-- C7 counterexample: the nested-tuple field writes only 1 byte while
the cursor advances by its declared size 4, so the second field is
emitted at byte 1 instead of its offset 4.  The final blob is
`[5, 7, 0, 0, 0]` — the correct total size — but the bytes of field 1
(`[7]`) are not at offset 4, refuting the claim that every field `i` is
placed at `offsets[i]`. -/
theorem tuple_nested_offset_counterexample :
    alloc_const cEx outerL = some [5, 7, 0, 0, 0] ∧
    ¬ ((([5, 7, 0, 0, 0] : List Nat).drop 4).take (Layout.prim 1).size =
        flatBytes (.scalar 7) (.prim 1)) := by
  refine ⟨by decide, by decide⟩

/-- Witness for the amended C7 at a flat two-field tuple
`(7 : u32, 9 : u32)` with offsets 0 and 4 in an 8-byte layout. -/
theorem tuple_flat_fields_placed_witness :
    ∃ blob, alloc_const (.tuple [.scalar 7, .scalar 9])
        (.arb 8 [(0, .prim 4), (4, .prim 4)]) = some blob ∧
      blob.length = 8 ∧
      ∀ j c off fl, [Const.scalar 7, Const.scalar 9].get? j = some c →
        [(0, Layout.prim 4), (4, Layout.prim 4)].get? j = some (off, fl) →
        (blob.drop off).take fl.size = flatBytes c fl :=
  tuple_flat_fields_placed 8 [(0, .prim 4), (4, .prim 4)]
    [.scalar 7, .scalar 9] rfl (by decide) (by decide) (by decide)

end ConstMat
